import Mathlib

/-!
Shallow embedding of `src/Logo.py` (logomaker): the glyph layout engine
`Logo._compute_characters` and the Logo controller operations, together
with theorems about the stacking geometry, validation order and styling
behaviour.  Numeric values are modelled as rationals; a matrix row is a
list of values (one per character, in input column order).
-/

/-- Sorting step of `Logo._compute_characters` (src/Logo.py lines 682-685):
`ordered_indices = np.argsort(vs); vs = vs[ordered_indices]` reorders the
row's values ascendingly.  Here we keep the sorted values themselves. -/
def sortRow (vs : List ℚ) : List ℚ :=
  List.insertionSort (· ≤ ·) vs

/-- Initial floor of a row's stack (src/Logo.py line 688):
`floor = sum((vs - vsep) * (vs < 0)) + vsep/2.0`, the sum of `(v - vsep)`
over the row's negative values, plus half the gap. -/
def initFloor (vs : List ℚ) (g : ℚ) : ℚ :=
  (vs.map (fun v => if v < 0 then v - g else 0)).sum + g / 2

/-- Per-character placement loop of `Logo._compute_characters`
(src/Logo.py lines 691-717): for each value `v` in sorted order the glyph
gets the extent `[floor, floor + |v|]` (`ceiling = floor + abs(v)`) and the
floor then advances to `ceiling + vsep`.  Each produced triple is
`(value, floor, ceiling)`. -/
def stackGlyphs (g : ℚ) (f : ℚ) : List ℚ → List (ℚ × ℚ × ℚ)
  | [] => []
  | v :: vs => (v, f, f + |v|) :: stackGlyphs g (f + |v| + g) vs

/-- Layout of one matrix row: sort the values, set the initial floor from
the sorted row, then place all glyphs (src/Logo.py lines 679-717). -/
def layoutRow (vs : List ℚ) (g : ℚ) : List (ℚ × ℚ × ℚ) :=
  stackGlyphs g (initFloor (sortRow vs) g) (sortRow vs)

/-- Sum of the absolute values of a row. -/
def absSum (vs : List ℚ) : ℚ :=
  (vs.map (fun v => |v|)).sum

/-- Number of strictly negative values in a row. -/
def negCount (vs : List ℚ) : ℕ :=
  (vs.filter (fun v => decide (v < 0))).length

/-- The floor assigned to the glyph at index `n` of the placement loop,
in closed form: initial floor, plus the heights of the glyphs already
placed, plus `n` copies of the gap. -/
def floorAt (f g : ℚ) (vs : List ℚ) (n : ℕ) : ℚ :=
  f + absSum (vs.take n) + (n : ℚ) * g

theorem absSum_nil : absSum [] = 0 := rfl

theorem absSum_cons (v : ℚ) (vs : List ℚ) : absSum (v :: vs) = |v| + absSum vs := by
  simp [absSum]

theorem absSum_append (xs ys : List ℚ) : absSum (xs ++ ys) = absSum xs + absSum ys := by
  simp [absSum]

theorem stackGlyphs_get? (g : ℚ) :
    ∀ (vs : List ℚ) (f : ℚ) (n : ℕ),
      (stackGlyphs g f vs).get? n =
        (vs.get? n).map (fun v => (v, floorAt f g vs n, floorAt f g vs n + |v|)) := by
  intro vs
  induction vs with
  | nil => intro f n; simp [stackGlyphs]
  | cons v vs ih =>
    intro f n
    cases n with
    | zero =>
      simp [stackGlyphs, floorAt, absSum]
    | succ m =>
      have hstep : floorAt (f + |v| + g) g vs m = floorAt f g (v :: vs) (m + 1) := by
        simp only [floorAt, List.take_succ_cons, absSum_cons]
        push_cast
        ring
      calc (stackGlyphs g f (v :: vs)).get? (m + 1)
          = (stackGlyphs g (f + |v| + g) vs).get? m := rfl
        _ = (vs.get? m).map
              (fun w => (w, floorAt (f + |v| + g) g vs m, floorAt (f + |v| + g) g vs m + |w|)) :=
            ih (f + |v| + g) m
        _ = ((v :: vs).get? (m + 1)).map
              (fun w => (w, floorAt f g (v :: vs) (m + 1), floorAt f g (v :: vs) (m + 1) + |w|)) := by
            rw [hstep]; rfl

theorem stackGlyphs_mem (g : ℚ) (hg : 0 ≤ g) :
    ∀ (vs : List ℚ) (f : ℚ) (t : ℚ × ℚ × ℚ), t ∈ stackGlyphs g f vs →
      f ≤ t.2.1 ∧ t.1 ∈ vs ∧ t.2.2 = t.2.1 + |t.1| := by
  intro vs
  induction vs with
  | nil => intro f t ht; simp [stackGlyphs] at ht
  | cons v vs ih =>
    intro f t ht
    rw [stackGlyphs, List.mem_cons] at ht
    rcases ht with rfl | ht
    · exact ⟨le_refl _, List.mem_cons_self _ _, rfl⟩
    · obtain ⟨h1, h2, h3⟩ := ih (f + |v| + g) t ht
      have hle : f ≤ f + |v| + g := by
        have := abs_nonneg v
        linarith
      exact ⟨le_trans hle h1, List.mem_cons_of_mem _ h2, h3⟩

theorem stackGlyphs_chain (g : ℚ) :
    ∀ (vs : List ℚ) (f : ℚ),
      List.Chain' (fun x y : ℚ × ℚ × ℚ => y.2.1 = x.2.2 + g) (stackGlyphs g f vs) := by
  intro vs
  induction vs with
  | nil => intro f; simp [stackGlyphs]
  | cons v vs ih =>
    intro f
    cases vs with
    | nil => simp [stackGlyphs]
    | cons w ws =>
      rw [show stackGlyphs g f (v :: w :: ws)
            = (v, f, f + |v|) :: (w, f + |v| + g, f + |v| + g + |w|)
                :: stackGlyphs g (f + |v| + g + |w| + g) ws from rfl]
      rw [List.chain'_cons]
      exact ⟨rfl, ih (f + |v| + g)⟩

theorem stackGlyphs_pairwise (g : ℚ) (hg : 0 ≤ g) :
    ∀ (vs : List ℚ) (f : ℚ), List.Sorted (· ≤ ·) vs →
      (stackGlyphs g f vs).Pairwise
        (fun x y : ℚ × ℚ × ℚ => x.1 ≤ y.1 ∧ x.2.2 ≤ y.2.1) := by
  intro vs
  induction vs with
  | nil => intro f _; simp [stackGlyphs]
  | cons v vs ih =>
    intro f h
    rw [List.sorted_cons] at h
    rw [stackGlyphs]
    refine List.Pairwise.cons ?_ (ih (f + |v| + g) h.2)
    intro t ht
    obtain ⟨h1, h2, _⟩ := stackGlyphs_mem g hg vs (f + |v| + g) t ht
    refine ⟨h.1 t.1 h2, ?_⟩
    have := abs_nonneg v
    simp only
    linarith

theorem stackGlyphs_heights (g : ℚ) :
    ∀ (vs : List ℚ) (f : ℚ),
      (stackGlyphs g f vs).map (fun t => t.2.2 - t.2.1) = vs.map (fun v => |v|) := by
  intro vs
  induction vs with
  | nil => intro f; simp [stackGlyphs]
  | cons v vs ih =>
    intro f
    rw [stackGlyphs, List.map_cons, List.map_cons, ih (f + |v| + g)]
    simp

theorem sortRow_perm (vs : List ℚ) : List.Perm (sortRow vs) vs :=
  List.perm_insertionSort _ vs

theorem sortRow_sorted (vs : List ℚ) : List.Sorted (· ≤ ·) (sortRow vs) :=
  List.sorted_insertionSort _ vs

theorem absSum_perm {xs ys : List ℚ} (h : List.Perm xs ys) : absSum xs = absSum ys :=
  List.Perm.sum_eq (List.Perm.map _ h)

/-- C2: in every row's layout, each glyph has `ceiling = floor + |value|`;
consecutive glyphs satisfy `next floor = previous ceiling + gap`; for
`gap ≥ 0` the extents are pairwise non-overlapping (`ceiling` of an earlier
glyph is at most the `floor` of a later one) and ordered by ascending
value; and the total stacked height (the sum of `ceiling - floor` over the
row's glyphs, ignoring gaps) equals the sum of absolute values of the
row. -/
theorem layoutRow_stack_geometry (vs : List ℚ) (g : ℚ) (hg : 0 ≤ g) :
    (∀ t ∈ layoutRow vs g, t.2.2 = t.2.1 + |t.1|)
    ∧ List.Chain' (fun x y : ℚ × ℚ × ℚ => y.2.1 = x.2.2 + g) (layoutRow vs g)
    ∧ (layoutRow vs g).Pairwise
        (fun x y : ℚ × ℚ × ℚ => x.1 ≤ y.1 ∧ x.2.2 ≤ y.2.1)
    ∧ ((layoutRow vs g).map (fun t => t.2.2 - t.2.1)).sum = absSum vs := by
  refine ⟨?_, ?_, ?_, ?_⟩
  · intro t ht
    exact (stackGlyphs_mem g hg _ _ t ht).2.2
  · exact stackGlyphs_chain g _ _
  · exact stackGlyphs_pairwise g hg _ _ (sortRow_sorted vs)
  · rw [layoutRow, stackGlyphs_heights]
    exact absSum_perm (sortRow_perm vs)

/-- Witness for C2 on the spec's example row `[-1, -2, 3]` with gap 0. -/
theorem layoutRow_stack_geometry_witness :
    (0 : ℚ) ≤ 1
    ∧ ((layoutRow [-1, -2, 3] 1).map (fun t => t.2.2 - t.2.1)).sum = absSum [-1, -2, 3] :=
  ⟨by norm_num, (layoutRow_stack_geometry [-1, -2, 3] 1 (by norm_num)).2.2.2⟩

theorem sum_map_sub_const (l : List ℚ) (c : ℚ) :
    (l.map (fun v => v - c)).sum = l.sum - (l.length : ℚ) * c := by
  induction l with
  | nil => simp
  | cons a t ih =>
    simp only [List.map_cons, List.sum_cons, List.length_cons, ih]
    push_cast
    ring

theorem initFloor_filter_sum (l : List ℚ) (g : ℚ) :
    (l.map (fun v => if v < 0 then v - g else 0)).sum
      = (l.filter (fun v => decide (v < 0))).sum
          - ((l.filter (fun v => decide (v < 0))).length : ℚ) * g := by
  induction l with
  | nil => simp
  | cons a t ih =>
    by_cases ha : a < 0
    · simp [List.filter_cons, ha, ih]
      ring
    · simp [List.filter_cons, ha, ih]

theorem sorted_filter_neg_eq_takeWhile :
    ∀ {l : List ℚ}, List.Sorted (· ≤ ·) l →
      l.filter (fun v => decide (v < 0)) = l.takeWhile (fun v => decide (v < 0)) := by
  intro l
  induction l with
  | nil => intro _; rfl
  | cons a t ih =>
    intro h
    rw [List.sorted_cons] at h
    by_cases ha : a < 0
    · simp [List.filter_cons, List.takeWhile_cons, ha, ih h.2]
    · simp only [List.filter_cons, List.takeWhile_cons]
      simp [ha]
      intro b hb
      exact le_trans (not_lt.mp ha) (h.1 b hb)

theorem absSum_of_neg : ∀ {l : List ℚ}, (∀ v ∈ l, v < 0) → absSum l = -l.sum := by
  intro l
  induction l with
  | nil => intro _; simp [absSum]
  | cons a t ih =>
    intro h
    rw [absSum_cons, List.sum_cons, ih (fun v hv => h v (List.mem_cons_of_mem _ hv)),
      abs_of_neg (h a (List.mem_cons_self _ _))]
    ring

theorem floorAt_succ (f g : ℚ) (vs : List ℚ) (n : ℕ) (hn : n < vs.length) :
    floorAt f g vs (n + 1) = floorAt f g vs n + |vs[n]| + g := by
  rw [floorAt, floorAt, List.take_succ, absSum_append, List.getElem?_eq_getElem hn]
  simp only [Option.toList_some, absSum_cons, absSum_nil]
  push_cast
  ring

/-- C1: the initial floor of a row's stack equals the sum of `(v - g)` over
the row's negative values plus `g/2` (src/Logo.py line 688); consequently,
for `g > 0` and a row containing a negative and a positive value, the
topmost below-axis glyph (the last negative-valued glyph in the sorted
stacking order) has its ceiling exactly at `-g/2`, the bottommost
above-axis glyph (the next glyph in the stack) has its floor exactly at
`+g/2`, and the vertical gap between the two is exactly `g`. -/
theorem layoutRow_gap_centered (vs : List ℚ) (g : ℚ) :
    initFloor (sortRow vs) g
      = ((vs.filter (fun v => decide (v < 0))).map (fun v => v - g)).sum + g / 2
    ∧ (0 < g → (∃ v ∈ vs, v < 0) → (∃ v ∈ vs, 0 < v) →
        ((layoutRow vs g).get? (negCount vs - 1)).map (fun t => t.2.2) = some (-(g / 2))
        ∧ ((layoutRow vs g).get? (negCount vs)).map (fun t => t.2.1) = some (g / 2)
        ∧ g / 2 - -(g / 2) = g) := by
  constructor
  · have hperm := List.Perm.filter (fun v => decide (v < 0)) (sortRow_perm vs)
    rw [initFloor, initFloor_filter_sum, sum_map_sub_const,
      List.Perm.sum_eq hperm, List.Perm.length_eq hperm]
  · intro hg hneg hpos
    set s := sortRow vs with hs
    have hsorted : List.Sorted (· ≤ ·) s := sortRow_sorted vs
    have hfil : s.filter (fun v => decide (v < 0)) = s.takeWhile (fun v => decide (v < 0)) :=
      sorted_filter_neg_eq_takeWhile hsorted
    set tw := s.takeWhile (fun v => decide (v < 0)) with htwdef
    set k := tw.length with hkdef
    have hperm := List.Perm.filter (fun v => decide (v < 0)) (sortRow_perm vs)
    have hkeq : negCount vs = k := by
      rw [negCount, ← List.Perm.length_eq hperm, hfil]
    have htwneg : ∀ v ∈ tw, v < 0 := by
      intro v hv
      have := List.mem_takeWhile_imp hv
      simpa using this
    have hsplit : tw ++ s.dropWhile (fun v => decide (v < 0)) = s :=
      List.takeWhile_append_dropWhile _ _
    have htake : s.take k = tw := by
      conv_lhs => rw [← hsplit]
      exact List.take_left _ _
    obtain ⟨vneg, hvneg_mem, hvneg⟩ := hneg
    have hk1 : 0 < k := by
      have hmem : vneg ∈ s.filter (fun v => decide (v < 0)) := by
        rw [List.mem_filter]
        exact ⟨(sortRow_perm vs).mem_iff.mpr hvneg_mem, by simpa using hvneg⟩
      rw [hfil] at hmem
      exact List.length_pos.mpr (List.ne_nil_of_mem hmem)
    obtain ⟨vpos, hvpos_mem, hvpos⟩ := hpos
    have hvpos_s : vpos ∈ s := (sortRow_perm vs).mem_iff.mpr hvpos_mem
    have hvpos_app : vpos ∈ tw ++ s.dropWhile (fun v => decide (v < 0)) := by
      rw [hsplit]; exact hvpos_s
    have hvpos_dw : vpos ∈ s.dropWhile (fun v => decide (v < 0)) := by
      rcases List.mem_append.mp hvpos_app with h | h
      · exact absurd (htwneg _ h) (not_lt.mpr (le_of_lt hvpos))
      · exact h
    have hklen : k < s.length := by
      rw [← hsplit, List.length_append]
      have hdw : 0 < (s.dropWhile (fun v => decide (v < 0))).length :=
        List.length_pos.mpr (List.ne_nil_of_mem hvpos_dw)
      omega
    have hf0 : initFloor s g = tw.sum - (k : ℚ) * g + g / 2 := by
      rw [initFloor, initFloor_filter_sum, hfil]
    have habs : absSum (s.take k) = -tw.sum := by
      rw [htake]; exact absSum_of_neg htwneg
    have hfloork : floorAt (initFloor s g) g s k = g / 2 := by
      rw [floorAt, hf0, habs]; ring
    have hget : s.get? k = some (s.get ⟨k, hklen⟩) := List.get?_eq_get hklen
    have hfloor_conc :
        ((layoutRow vs g).get? (negCount vs)).map (fun t => t.2.1) = some (g / 2) := by
      rw [hkeq]
      simp only [layoutRow, ← hs]
      rw [stackGlyphs_get?, hget]
      simp [hfloork]
    obtain ⟨m, hm⟩ : ∃ m, k = m + 1 := ⟨k - 1, (Nat.succ_pred_eq_of_pos hk1).symm⟩
    have hms : m < s.length := by omega
    have hstep := floorAt_succ (initFloor s g) g s m hms
    have hceil_val : floorAt (initFloor s g) g s m + |s[m]| = -(g / 2) := by
      have hsucc : floorAt (initFloor s g) g s (m + 1) = g / 2 := by
        rw [← hm]; exact hfloork
      rw [hstep] at hsucc
      linarith
    have hgetm : s.get? m = some (s.get ⟨m, hms⟩) := List.get?_eq_get hms
    have hkm : negCount vs - 1 = m := by omega
    have hceil_conc :
        ((layoutRow vs g).get? (negCount vs - 1)).map (fun t => t.2.2) = some (-(g / 2)) := by
      rw [hkm]
      simp only [layoutRow, ← hs]
      rw [stackGlyphs_get?, hgetm]
      simp [hceil_val]
    exact ⟨hceil_conc, hfloor_conc, by ring⟩

/-- Witness for C1 at the row `[-1, -2, 3]` with gap 1: the second glyph
(last below-axis) has ceiling `-1/2` and the third glyph has floor `1/2`. -/
theorem layoutRow_gap_centered_witness :
    ((layoutRow [-1, -2, 3] 1).get? (negCount [-1, -2, 3] - 1)).map (fun t => t.2.2)
        = some (-(1 / 2 : ℚ))
    ∧ ((layoutRow [-1, -2, 3] 1).get? (negCount [-1, -2, 3])).map (fun t => t.2.1)
        = some ((1 : ℚ) / 2) :=
  ⟨((layoutRow_gap_centered [-1, -2, 3] 1).2 (by norm_num) (by decide) (by decide)).1,
   ((layoutRow_gap_centered [-1, -2, 3] 1).2 (by norm_num) (by decide) (by decide)).2.1⟩

/-- Negation transform of `Logo.__init__` (src/Logo.py lines 130-132):
`if self.negate: self.matrix_df = -self.matrix_df`.  The matrix is a list
of rows (one per position), each a list of values (one per character). -/
def negateStep (negate : Bool) (m : List (List ℚ)) : List (List ℚ) :=
  if negate then m.map (fun row => row.map (fun v => -v)) else m

/-- Centering transform of `Logo.__init__` (src/Logo.py lines 139-141):
`self.matrix_df.values - self.matrix_df.values.mean(axis=1)[:, np.newaxis]`
subtracts each row's mean from every value of that row. -/
def centerStep (center : Bool) (m : List (List ℚ)) : List (List ℚ) :=
  if center then m.map (fun row => row.map (fun v => v - row.sum / (row.length : ℚ))) else m

/-- The constructor's matrix transform: negation (lines 130-132) runs
before centering (lines 139-141). -/
def logoTransform (negate center : Bool) (m : List (List ℚ)) : List (List ℚ) :=
  centerStep center (negateStep negate m)

/-- C8: with centering requested, the row mean is subtracted from every
value of the row, after any requested negation, and every row of the
resulting matrix sums to zero (rows must be nonempty for the mean to be
defined). -/
theorem logoTransform_center_zero_sum (negate : Bool) (m : List (List ℚ))
    (h : ∀ row ∈ m, row ≠ []) :
    logoTransform negate true m
      = (negateStep negate m).map
          (fun row => row.map (fun v => v - row.sum / (row.length : ℚ)))
    ∧ ∀ row ∈ logoTransform negate true m, row.sum = 0 := by
  constructor
  · rw [logoTransform, centerStep, if_pos rfl]
  · intro row hrow
    rw [logoTransform, centerStep, if_pos rfl, List.mem_map] at hrow
    obtain ⟨r, hr, rfl⟩ := hrow
    have hrne : r.length ≠ 0 := by
      rw [negateStep] at hr
      by_cases hn : negate
      · rw [if_pos hn, List.mem_map] at hr
        obtain ⟨r0, hr0, rfl⟩ := hr
        simpa [List.length_eq_zero] using h r0 hr0
      · rw [if_neg hn] at hr
        simpa [List.length_eq_zero] using h r hr
    have hlen : ((r.length : ℚ)) ≠ 0 := Nat.cast_ne_zero.mpr hrne
    rw [sum_map_sub_const]
    field_simp

/-- Witness for C8 on a concrete 2 x 3 matrix with negation enabled. -/
theorem logoTransform_center_zero_sum_witness :
    (∀ row ∈ [[(1 : ℚ), 2, 3], [4, 5, 6]], row ≠ [])
    ∧ ∀ row ∈ logoTransform true true [[(1 : ℚ), 2, 3], [4, 5, 6]], row.sum = 0 :=
  ⟨by decide, (logoTransform_center_zero_sum true [[(1 : ℚ), 2, 3], [4, 5, 6]] (by decide)).2⟩

/-- The matrix argument kind as seen by the `isinstance` check of
`Logo.__init__` (src/Logo.py lines 92-94). -/
inductive LogoMatrixArg
  | dataFrame
  | matrixObj
  | invalid
deriving DecidableEq

/-- Configuration stored by `Logo.__init__` (src/Logo.py lines 119-125). -/
structure LogoConfig where
  vsep : ℚ
  negate : Bool
  center : Bool
deriving DecidableEq

/-- Validation performed by `Logo.__init__` (src/Logo.py lines 79-154):
the only eager assertion is the `isinstance` check on the matrix argument
(lines 92-94); every other argument, `vsep` included, is saved unchanged
(lines 119-125) and later used by `_compute_characters`. -/
def logo_init (matrix : LogoMatrixArg) (vsep : ℚ) (negate center : Bool) :
    Except String LogoConfig :=
  match matrix with
  | .invalid => .error "Error: matrix must be either a pd.DataFrame object or a Matrix object"
  | _ => .ok { vsep := vsep, negate := negate, center := center }

/-- C4 counterexample: constructing with `vsep = -1` raises no error; the
negative gap is stored unchanged and flows into the layout computation
(here `layoutRow` places a glyph using gap `-1`). -/
theorem logo_init_negative_vsep_accepted :
    logo_init .dataFrame (-1) false false
      = .ok { vsep := -1, negate := false, center := false }
    ∧ layoutRow [1] (-1) = [(1, -(1 / 2), 1 / 2)] := by
  constructor
  · rfl
  · norm_num [layoutRow, sortRow, initFloor, stackGlyphs, List.insertionSort,
      List.orderedInsert]

/-- C4 (amended): `Logo.__init__` validates eagerly only the matrix type;
any `vsep`, negative values included, is silently accepted, stored
unchanged, and used by the layout computation. -/
theorem logo_init_no_vsep_validation (vsep : ℚ) (negate center : Bool) :
    logo_init .dataFrame vsep negate center
        = .ok { vsep := vsep, negate := negate, center := center }
    ∧ logo_init .matrixObj vsep negate center
        = .ok { vsep := vsep, negate := negate, center := center }
    ∧ logo_init .invalid vsep negate center
        = .error "Error: matrix must be either a pd.DataFrame object or a Matrix object" :=
  ⟨rfl, rfl, rfl⟩

/-- The `chars_to_colors_dict` lookup with default (src/Logo.py lines 11-15
and 114-116): `chars_to_colors_dict.get(tuple(self.cs), 'gray')`, keyed on
the exact ordered tuple of the matrix's character columns. -/
def chars_to_colors_get (cs : List Char) : String :=
  if cs = "ACGT".toList then "classic"
  else if cs = "ACGU".toList then "classic"
  else if cs = "ACDEFGHIKLMNPQRSTVWY".toList then "hydrophobicity"
  else "gray"

/-- Color resolution of `Logo.__init__` (src/Logo.py lines 113-117): with
`colors=None` the scheme comes from the character-tuple lookup, otherwise
the given scheme is used as is. -/
def resolveColors (colors : Option String) (cs : List Char) : String :=
  match colors with
  | some c => c
  | none => chars_to_colors_get cs

/-- C10: with `colors=None`, the exact tuples `ACGT` and `ACGU` yield the
`classic` scheme, the 20-character protein tuple yields `hydrophobicity`,
and every other character list, permutations and subsets of those tuples
included, yields the uniform color `gray`. -/
theorem resolveColors_default_schemes :
    resolveColors none "ACGT".toList = "classic"
    ∧ resolveColors none "ACGU".toList = "classic"
    ∧ resolveColors none "ACDEFGHIKLMNPQRSTVWY".toList = "hydrophobicity"
    ∧ ∀ cs : List Char, cs ≠ "ACGT".toList → cs ≠ "ACGU".toList →
        cs ≠ "ACDEFGHIKLMNPQRSTVWY".toList → resolveColors none cs = "gray" := by
  refine ⟨by decide, by decide, by decide, ?_⟩
  intro cs h1 h2 h3
  rw [resolveColors, chars_to_colors_get, if_neg h1, if_neg h2, if_neg h3]

/-- Witness for C10: the permutation `TGCA` of the DNA alphabet falls
through to `gray`. -/
theorem resolveColors_default_schemes_witness :
    resolveColors none "TGCA".toList = "gray" :=
  resolveColors_default_schemes.2.2.2 "TGCA".toList (by decide) (by decide) (by decide)

/-- Drawing-surface state touched by the Logo controller: y-limits, overlay
rectangles `(x, y, width, height)`, horizontal lines, tick positions and
labels, and spine visibility. -/
structure AxState where
  ylim : ℚ × ℚ
  patches : List (ℚ × ℚ × ℚ × ℚ)
  hlines : List ℚ
  xticks : List ℤ
  xticklabels : List String
  spinesVisible : List (String × Bool)
deriving DecidableEq

/-- Controller state for the post-render operations: the has-been-drawn
flag (src/Logo.py lines 128 and 644-651), the matrix's positions `self.ps`
(modelled as integers, matching the integer tick grid of `style_xticks`),
and the axes state. -/
structure DrawnLogo where
  hasBeenDrawn : Bool
  positions : List ℤ
  ax : AxState
deriving DecidableEq

/-- `Logo.highlight_position_range` (src/Logo.py lines 397-471): requires
the logo to have been drawn; defaults floor/ceiling to the axes y-limits;
asserts `floor < ceiling`, then `pmin <= pmax`, then `padding >= -0.5`;
finally adds one `Rectangle(xy=(pmin - .5 - padding, floor),
width=pmax - pmin + 1 + 2*padding, height=ceiling - floor)`. -/
def highlight_position_range (st : DrawnLogo) (pmin pmax padding : ℚ)
    (floorArg ceilingArg : Option ℚ) : Except String DrawnLogo :=
  if st.hasBeenDrawn then
    let fl := floorArg.getD st.ax.ylim.1
    let ce := ceilingArg.getD st.ax.ylim.2
    if fl < ce then
      if pmin ≤ pmax then
        if -(1 / 2 : ℚ) ≤ padding then
          .ok { st with ax := { st.ax with patches := st.ax.patches ++
            [(pmin - 1 / 2 - padding, fl, pmax - pmin + 1 + 2 * padding, ce - fl)] } }
        else .error "Error: padding >= -0.5 not satisfied"
      else .error "Error: pmin <= pmax not satisfied."
    else .error "Error: floor < ceiling not satisfied."
  else .error "Error: Cannot call this function until Log0 has been drawn."

/-- `Logo.highlight_position` (src/Logo.py lines 373-395): asserts the
drawn flag, then delegates to `highlight_position_range` with
`pmin = pmax = p`. -/
def highlight_position (st : DrawnLogo) (p : ℚ) : Except String DrawnLogo :=
  if st.hasBeenDrawn then highlight_position_range st p p 0 none none
  else .error "Error: Cannot call this function until Log0 has been drawn."

/-- `Logo.draw_baseline` (src/Logo.py lines 473-510): asserts the drawn
flag, then draws a horizontal line along the x-axis (`ax.axhline`, default
`y = 0`). -/
def draw_baseline (st : DrawnLogo) : Except String DrawnLogo :=
  if st.hasBeenDrawn then
    .ok { st with ax := { st.ax with hlines := st.ax.hlines ++ [0] } }
  else .error "Error: Cannot call this function until Log0 has been drawn."

/-- `np.arange(p_min, p_max + 1)` over integers (src/Logo.py line 554):
the list `p_min, p_min + 1, ..., p_max`. -/
def arangeInts (a b : ℤ) : List ℤ :=
  (List.range (b + 1 - a).toNat).map (fun k : ℕ => a + (k : ℤ))

/-- `Logo.style_xticks` (src/Logo.py lines 512-562): asserts the drawn
flag; spans the positions present in the matrix
(`ps = np.arange(min(self.ps), max(self.ps) + 1)`); keeps the positions
with `(ps - anchor) % spacing == 0`; sets them as ticks and labels each by
the format applied to the position value (`fmt % p`, modelled by `fmtF`). -/
def style_xticks (st : DrawnLogo) (anchor spacing : ℤ) (fmtF : ℤ → String) :
    Except String DrawnLogo :=
  if st.hasBeenDrawn then
    let pmin := (st.positions.min?).getD 0
    let pmax := (st.positions.max?).getD 0
    let ps := arangeInts pmin pmax
    let xticks := ps.filter (fun p => (p - anchor) % spacing == 0)
    .ok { st with ax := { st.ax with xticks := xticks, xticklabels := xticks.map fmtF } }
  else .error "Error: Cannot call this function until Log0 has been drawn."

/-- `Logo.style_spines` (src/Logo.py lines 564-616): asserts the drawn
flag, then sets the visibility of every spine named in `spines`. -/
def style_spines (st : DrawnLogo) (spines : List String) (visible : Bool) :
    Except String DrawnLogo :=
  if st.hasBeenDrawn then
    .ok { st with ax := { st.ax with
      spinesVisible := st.ax.spinesVisible.map
        (fun e => if e.1 ∈ spines then (e.1, visible) else e) } }
  else .error "Error: Cannot call this function until Log0 has been drawn."

/-- A concrete drawn controller state used as a witness input. -/
def drawnW : DrawnLogo :=
  { hasBeenDrawn := true
    positions := [0, 1, 2, 3, 4]
    ax := { ylim := (0, 1), patches := [], hlines := [], xticks := [], xticklabels := [],
            spinesVisible := [("top", true), ("bottom", true), ("left", true), ("right", true)] } }

/-- A concrete not-yet-drawn controller state used as a witness input. -/
def undrawnW : DrawnLogo :=
  { hasBeenDrawn := false
    positions := [0, 1, 2, 3, 4]
    ax := { ylim := (0, 1), patches := [], hlines := [], xticks := [], xticklabels := [],
            spinesVisible := [("top", true), ("bottom", true), ("left", true), ("right", true)] } }

/-- C6: on a drawn logo, `highlight_position_range` with `pmin ≤ pmax`,
`padding ≥ -1/2` and resolved `floor < ceiling` adds exactly one rectangle
spanning x in `[pmin - 1/2 - padding, pmax + 1/2 + padding]` (the stored x
plus the stored width reaches exactly `pmax + 1/2 + padding`) and y in
`[floor, ceiling]`, floor and ceiling defaulting to the axes y-limits;
with `pmin > pmax` or `padding < -1/2` it fails with the corresponding
ordering error. -/
theorem highlight_position_range_rect (st : DrawnLogo) (pmin pmax padding : ℚ)
    (fo co : Option ℚ) (hd : st.hasBeenDrawn = true) :
    (fo.getD st.ax.ylim.1 < co.getD st.ax.ylim.2 → pmin ≤ pmax → -(1 / 2 : ℚ) ≤ padding →
      highlight_position_range st pmin pmax padding fo co =
        .ok { st with ax := { st.ax with patches := st.ax.patches ++
          [(pmin - 1 / 2 - padding, fo.getD st.ax.ylim.1,
            pmax - pmin + 1 + 2 * padding,
            co.getD st.ax.ylim.2 - fo.getD st.ax.ylim.1)] } }
      ∧ (pmin - 1 / 2 - padding) + (pmax - pmin + 1 + 2 * padding) = pmax + 1 / 2 + padding
      ∧ fo.getD st.ax.ylim.1 + (co.getD st.ax.ylim.2 - fo.getD st.ax.ylim.1)
          = co.getD st.ax.ylim.2)
    ∧ (fo.getD st.ax.ylim.1 < co.getD st.ax.ylim.2 → pmax < pmin →
        highlight_position_range st pmin pmax padding fo co
          = .error "Error: pmin <= pmax not satisfied.")
    ∧ (fo.getD st.ax.ylim.1 < co.getD st.ax.ylim.2 → pmin ≤ pmax → padding < -(1 / 2 : ℚ) →
        highlight_position_range st pmin pmax padding fo co
          = .error "Error: padding >= -0.5 not satisfied") := by
  refine ⟨?_, ?_, ?_⟩
  · intro h1 h2 h3
    refine ⟨?_, by ring, by ring⟩
    simp only [highlight_position_range, hd, if_true]
    rw [if_pos h1, if_pos h2, if_pos h3]
  · intro h1 h2
    simp only [highlight_position_range, hd, if_true]
    rw [if_pos h1, if_neg (not_le.mpr h2)]
  · intro h1 h2 h3
    simp only [highlight_position_range, hd, if_true]
    rw [if_pos h1, if_pos h2, if_neg (not_le.mpr h3)]

/-- Witness for C6: `pmin = pmax = 2`, `padding = 0` on a drawn logo with
y-limits `(0, 1)` adds the one rectangle whose x-span is `[3/2, 5/2]`. -/
theorem highlight_position_range_rect_witness :
    highlight_position_range drawnW 2 2 0 none none =
      .ok { drawnW with ax := { drawnW.ax with patches := drawnW.ax.patches ++
        [((2 : ℚ) - 1 / 2 - 0, Option.getD none drawnW.ax.ylim.1,
          (2 : ℚ) - 2 + 1 + 2 * 0,
          Option.getD none drawnW.ax.ylim.2 - Option.getD none drawnW.ax.ylim.1)] } }
    ∧ ((2 : ℚ) - 1 / 2 - 0 = 3 / 2)
    ∧ ((2 : ℚ) - 1 / 2 - 0) + ((2 : ℚ) - 2 + 1 + 2 * 0) = 5 / 2 := by
  refine ⟨?_, by norm_num, by norm_num⟩
  exact ((highlight_position_range_rect drawnW 2 2 0 none none rfl).1
    (by norm_num [drawnW]) (le_refl _) (by norm_num)).1

/-- C7: all five post-render-only operations fail with the precondition
error while the has-been-drawn flag is false. -/
theorem predraw_operations_error (st : DrawnLogo) (hd : st.hasBeenDrawn = false)
    (p pmin pmax padding : ℚ) (fo co : Option ℚ) (anchor spacing : ℤ)
    (fmtF : ℤ → String) (spines : List String) (visible : Bool) :
    highlight_position st p
        = .error "Error: Cannot call this function until Log0 has been drawn."
    ∧ highlight_position_range st pmin pmax padding fo co
        = .error "Error: Cannot call this function until Log0 has been drawn."
    ∧ draw_baseline st
        = .error "Error: Cannot call this function until Log0 has been drawn."
    ∧ style_xticks st anchor spacing fmtF
        = .error "Error: Cannot call this function until Log0 has been drawn."
    ∧ style_spines st spines visible
        = .error "Error: Cannot call this function until Log0 has been drawn." := by
  refine ⟨?_, ?_, ?_, ?_, ?_⟩ <;>
    simp [highlight_position, highlight_position_range, draw_baseline, style_xticks,
      style_spines, hd]

/-- Witness for C7 on a concrete not-yet-drawn state. -/
theorem predraw_operations_error_witness :
    draw_baseline undrawnW
      = .error "Error: Cannot call this function until Log0 has been drawn." :=
  (predraw_operations_error undrawnW rfl 1 0 1 0 none none 0 1 (fun _ => "") ["top"]
    false).2.2.1

theorem arangeInts_mem (a b p : ℤ) : p ∈ arangeInts a b ↔ a ≤ p ∧ p ≤ b := by
  rw [arangeInts]
  constructor
  · intro hmem
    obtain ⟨k, hk, hke⟩ := List.mem_map.mp hmem
    rw [List.mem_range] at hk
    have hk' := Int.lt_toNat.mp hk
    omega
  · intro h
    refine List.mem_map.mpr ⟨(p - a).toNat, ?_, ?_⟩
    · rw [List.mem_range]
      refine (Int.toNat_lt_toNat ?_).mpr ?_ <;> omega
    · rw [Int.toNat_of_nonneg (show (0 : ℤ) ≤ p - a by omega)]
      ring

/-- C9: on a drawn logo, `style_xticks` sets the tick positions to exactly
the integers within the span of the matrix's positions that lie on the
arithmetic grid anchored at `anchor` with step `spacing`
(`(p - anchor) mod spacing = 0`), and labels each tick with the format
applied to its position value. -/
theorem style_xticks_arithmetic (st : DrawnLogo) (anchor spacing : ℤ) (fmtF : ℤ → String)
    (pmin pmax : ℤ) (hd : st.hasBeenDrawn = true)
    (hmin : st.positions.min? = some pmin) (hmax : st.positions.max? = some pmax) :
    ∃ st', style_xticks st anchor spacing fmtF = .ok st'
      ∧ (∀ p : ℤ, p ∈ st'.ax.xticks ↔ pmin ≤ p ∧ p ≤ pmax ∧ spacing ∣ (p - anchor))
      ∧ st'.ax.xticklabels = st'.ax.xticks.map fmtF := by
  refine ⟨{ st with ax := { st.ax with
      xticks := (arangeInts pmin pmax).filter (fun p => (p - anchor) % spacing == 0),
      xticklabels := ((arangeInts pmin pmax).filter
        (fun p => (p - anchor) % spacing == 0)).map fmtF } }, ?_, ?_, rfl⟩
  · simp [style_xticks, hd, hmin, hmax]
  · intro p
    show p ∈ (arangeInts pmin pmax).filter (fun p => (p - anchor) % spacing == 0) ↔ _
    rw [List.mem_filter, arangeInts_mem]
    constructor
    · rintro ⟨⟨h1, h2⟩, h3⟩
      exact ⟨h1, h2, Int.dvd_iff_emod_eq_zero.mpr (by simpa using h3)⟩
    · rintro ⟨h1, h2, h3⟩
      exact ⟨⟨h1, h2⟩, by simpa using Int.dvd_iff_emod_eq_zero.mp h3⟩

/-- Witness for C9: positions `0..4`, anchor 0, spacing 2. -/
theorem style_xticks_arithmetic_witness :
    ∃ st', style_xticks drawnW 0 2 (fun _ => "") = .ok st'
      ∧ (∀ p : ℤ, p ∈ st'.ax.xticks ↔ 0 ≤ p ∧ p ≤ 4 ∧ 2 ∣ (p - 0))
      ∧ st'.ax.xticklabels = st'.ax.xticks.map (fun _ => "") :=
  style_xticks_arithmetic drawnW 0 2 (fun _ => "") 0 4 rfl rfl rfl

/-- Controller state for sequence styling: the axes reference, the
character columns `self.cs`, the glyph table's positions
(`self.glyph_df.index`, one per matrix row), and one mutable styling
attribute per glyph (as set through `Glyph.set_attributes`, modelled by a
rational such as alpha), keyed by (position, character). -/
structure SeqLogo where
  ax : Option ℕ
  cs : List Char
  glyphPositions : List ℤ
  glyphAlpha : List ((ℤ × Char) × ℚ)
deriving DecidableEq

/-- `Logo._update_ax` (src/Logo.py lines 663-666): reset `self.ax` only
when the caller passed a new axes. -/
def updateAx (st : SeqLogo) (ax : Option ℕ) : SeqLogo :=
  match ax with
  | none => st
  | some a => { st with ax := some a }

/-- The glyph-attribute mutation done by `Glyph.set_attributes` on the one
glyph at `(p, c)` (src/Logo.py lines 310-312). -/
def setGlyphAlpha (gs : List ((ℤ × Char) × ℚ)) (p : ℤ) (c : Char) (a : ℚ) :
    List ((ℤ × Char) × ℚ) :=
  gs.map (fun e => if e.1 = (p, c) then (e.1, a) else e)

/-- `Logo.style_single_glyph` (src/Logo.py lines 271-316): update the axes
first, then assert that `p` indexes a glyph row and `c` a glyph column,
then mutate the glyph.  A failed assertion raises; the state mutated so
far is carried in the error, as the Python object keeps it. -/
def style_single_glyph (st : SeqLogo) (p : ℤ) (c : Char) (a : ℚ) (ax : Option ℕ) :
    Except (String × SeqLogo) SeqLogo :=
  let st1 := updateAx st ax
  if p ∈ st1.glyphPositions then
    if c ∈ st1.cs then
      .ok { st1 with glyphAlpha := setGlyphAlpha st1.glyphAlpha p c a }
    else .error ("Error: c is not a valid character", st1)
  else .error ("Error: p is not a valid position", st1)

/-- Per-position loop of `Logo.style_glyphs_in_sequence` (src/Logo.py
lines 360-367): style the glyph of the sequence character at every
position, through `style_single_glyph` (no new axes is forwarded). -/
def styleSeqLoop (st : SeqLogo) (a : ℚ) :
    List (ℤ × Char) → Except (String × SeqLogo) SeqLogo
  | [] => .ok st
  | (p, c) :: rest =>
    match style_single_glyph st p c a none with
    | .ok st' => styleSeqLoop st' a rest
    | .error e => .error e

/-- `Logo.style_glyphs_in_sequence` (src/Logo.py lines 318-371): run
`self._update_ax(ax)` first, then assert the sequence length equals the
number of positions, then assert every sequence character belongs to
`self.cs`, and only then style one glyph per position. -/
def style_glyphs_in_sequence (st : SeqLogo) (sequence : List Char) (a : ℚ)
    (ax : Option ℕ) : Except (String × SeqLogo) SeqLogo :=
  let st1 := updateAx st ax
  if sequence.length = st1.glyphPositions.length then
    if sequence.all (fun c => st1.cs.contains c) then
      styleSeqLoop st1 a (st1.glyphPositions.zip sequence)
    else .error ("Error: sequence contains invalid character", st1)
  else .error ("Error: sequence to highlight does not have same length as logo", st1)

theorem updateAx_fields (st : SeqLogo) (ax : Option ℕ) :
    (updateAx st ax).cs = st.cs ∧ (updateAx st ax).glyphPositions = st.glyphPositions
    ∧ (updateAx st ax).glyphAlpha = st.glyphAlpha := by
  cases ax <;> simp [updateAx]

theorem styleSeqLoop_ok (a : ℚ) :
    ∀ (pairs : List (ℤ × Char)) (st : SeqLogo),
      (∀ pc ∈ pairs, pc.1 ∈ st.glyphPositions ∧ pc.2 ∈ st.cs) →
      ∃ st', styleSeqLoop st a pairs = .ok st' := by
  intro pairs
  induction pairs with
  | nil => intro st _; exact ⟨st, rfl⟩
  | cons pc rest ih =>
    intro st h
    obtain ⟨p, c⟩ := pc
    obtain ⟨hp, hc⟩ := h (p, c) (List.mem_cons_self _ _)
    have hstep : style_single_glyph st p c a none =
        .ok { st with glyphAlpha := setGlyphAlpha st.glyphAlpha p c a } := by
      simp [style_single_glyph, updateAx, hp, hc]
    obtain ⟨st', hst'⟩ := ih { st with glyphAlpha := setGlyphAlpha st.glyphAlpha p c a }
      (fun pc hpc => h pc (List.mem_cons_of_mem _ hpc))
    refine ⟨st', ?_⟩
    simp only [styleSeqLoop]
    rw [hstep]
    exact hst'

/-- C5 (amended): a failing `style_glyphs_in_sequence` call changes no
glyph attribute and nothing except the axes reference, which `_update_ax`
sets before the length and character validation when a new axes is passed;
with `ax=None` (the default) a failing call mutates nothing at all. -/
theorem style_glyphs_in_sequence_error_state (st : SeqLogo) (sequence : List Char)
    (a : ℚ) (ax : Option ℕ) (e : String) (st' : SeqLogo)
    (h : style_glyphs_in_sequence st sequence a ax = .error (e, st')) :
    st'.glyphAlpha = st.glyphAlpha ∧ st'.cs = st.cs
    ∧ st'.glyphPositions = st.glyphPositions
    ∧ st' = updateAx st ax ∧ (ax = none → st' = st) := by
  have hst : st' = updateAx st ax := by
    by_cases hlen : sequence.length = (updateAx st ax).glyphPositions.length
    · by_cases hall : (sequence.all (fun c => (updateAx st ax).cs.contains c)) = true
      · exfalso
        have hvalid : ∀ pc ∈ (updateAx st ax).glyphPositions.zip sequence,
            pc.1 ∈ (updateAx st ax).glyphPositions ∧ pc.2 ∈ (updateAx st ax).cs := by
          intro pc hpc
          obtain ⟨p, c⟩ := pc
          obtain ⟨hp, hcseq⟩ := List.of_mem_zip hpc
          refine ⟨hp, ?_⟩
          have := (List.all_eq_true.mp hall) c hcseq
          simpa using this
        obtain ⟨st2, hok⟩ := styleSeqLoop_ok a _ (updateAx st ax) hvalid
        simp only [style_glyphs_in_sequence] at h
        rw [if_pos hlen, if_pos hall, hok] at h
        exact Except.noConfusion h
      · simp only [style_glyphs_in_sequence] at h
        rw [if_pos hlen, if_neg hall] at h
        simp only [Except.error.injEq, Prod.mk.injEq] at h
        exact h.2.symm
    · simp only [style_glyphs_in_sequence] at h
      rw [if_neg hlen] at h
      simp only [Except.error.injEq, Prod.mk.injEq] at h
      exact h.2.symm
  subst hst
  obtain ⟨h1, h2, h3⟩ := updateAx_fields st ax
  refine ⟨h3, h1, h2, rfl, ?_⟩
  intro hax
  subst hax
  rfl

/-- A concrete controller state for the C5 counterexample and witness. -/
def seqLogoW : SeqLogo :=
  { ax := some 0
    cs := ['A', 'C']
    glyphPositions := [0, 1]
    glyphAlpha := [((0, 'A'), 1), ((0, 'C'), 1), ((1, 'A'), 1), ((1, 'C'), 1)] }

/-- C5 counterexample: calling `style_glyphs_in_sequence` with a
one-character sequence on a two-position logo and a new axes fails the
length assertion, but the state carried out of the failing call already
differs from the input state: `_update_ax` changed the axes reference
before validation, so the call does not "mutate nothing". -/
theorem style_glyphs_in_sequence_mutates_ax :
    style_glyphs_in_sequence seqLogoW ['A'] 1 (some 7)
      = .error ("Error: sequence to highlight does not have same length as logo",
          { seqLogoW with ax := some 7 })
    ∧ ({ seqLogoW with ax := some 7 } : SeqLogo) ≠ seqLogoW := by
  constructor
  · rfl
  · decide

/-- Witness for C5 (amended) on the same failing call: the glyph
attributes and character set carried out of the error are unchanged. -/
theorem style_glyphs_in_sequence_error_state_witness :
    ({ seqLogoW with ax := some 7 } : SeqLogo).glyphAlpha = seqLogoW.glyphAlpha
    ∧ ({ seqLogoW with ax := some 7 } : SeqLogo).cs = seqLogoW.cs :=
  ⟨(style_glyphs_in_sequence_error_state seqLogoW ['A'] 1 (some 7)
      "Error: sequence to highlight does not have same length as logo"
      { seqLogoW with ax := some 7 } rfl).1,
   (style_glyphs_in_sequence_error_state seqLogoW ['A'] 1 (some 7)
      "Error: sequence to highlight does not have same length as logo"
      { seqLogoW with ax := some 7 } rfl).2.1⟩
